import Mathlib

/-!
Formal model of the fixed-record binary file store implemented in
`src/data/programs/2faf56ba_a4908fe8_9f5009f8_v2.py`.

Modelling conventions:
* a file is a list of bytes (`List Nat`);
* a Python string is represented by its UTF-8 byte sequence (`List Nat`),
  so `str.encode("utf-8")` is the identity and `bytes.decode("utf-8")`
  followed by `.rstrip("\x00")` is stripping trailing zero bytes;
* the `count` field is an unbounded integer; `struct.pack("i", ...)`
  raises exactly when it does not fit the signed 32-bit range, which the
  model reports as a codec error;
* the `price` field is modelled by the IEEE-754 binary32 bit pattern that
  `struct.pack("f", ...)` writes.  The claims under study quantify only
  over prices that fit the fixed 4-byte width, and for those the
  float64-to-float32 conversion performed by `struct.pack` is exact, so
  the bit pattern is a faithful representation of the stored value.
  Search comparisons use the exact rational value of the bit pattern;
* decimal literals handed to `int(...)` / `float(...)` are parsed exactly:
  a float literal becomes the exact rational `num / den` kept as an
  unnormalized numerator/denominator pair, and comparisons against the
  exact value of the stored binary32 price are performed by
  cross-multiplication (valid since both denominators are positive); the
  parsers cover the ASCII sign/digits/dot forms (Python's underscore
  separators, exponents and non-ASCII digits are outside the claims
  under study).
-/

/-- `RECORD_SIZE = struct.calcsize("20s i f 15s")`: 20 + 4 + 4 + 15 = 43 bytes. -/
def RECORD_SIZE : Nat := 43

/-- One database record as handled by `pack_record` / `unpack_record`:
name and category are UTF-8 byte strings, `count` a Python integer, and
`price` the binary32 bit pattern of the stored float. -/
structure DbRecord where
  name : List Nat
  count : Int
  price : Nat
  category : List Nat
deriving DecidableEq, Repr

/-- `bytes.ljust(w, b"\x00")`: right-pad with zero bytes up to width `w`. -/
def padTo (w : Nat) (l : List Nat) : List Nat :=
  l ++ List.replicate (w - l.length) 0

/-- Little-endian 4-byte encoding (the native byte order the script relies on). -/
def le4 (n : Nat) : List Nat :=
  [n % 256, n / 256 % 256, n / 65536 % 256, n / 16777216 % 256]

/-- Little-endian 4-byte decoding. -/
def fromLE4 (b : List Nat) : Nat :=
  b.getD 0 0 + 256 * b.getD 1 0 + 65536 * b.getD 2 0 + 16777216 * b.getD 3 0

/-- Reinterpret an unsigned 32-bit value as two's-complement signed. -/
def toI32 (n : Nat) : Int :=
  if n < 2 ^ 31 then (n : Int) else (n : Int) - 2 ^ 32

/-- Strip trailing zero bytes, i.e. `.rstrip("\x00")` on the decoded text. -/
def rstrip0 (l : List Nat) : List Nat :=
  (l.reverse.dropWhile (· == 0)).reverse

/-- The failure `struct.pack` can raise inside `pack_record`: `count` does
not fit the signed 32-bit `i` format. -/
inductive CodecError where
  | countOutOfRange
deriving DecidableEq, Repr

/-- The 43-byte block `pack_record` produces when it succeeds:
`name.encode("utf-8")[:20].ljust(20, b"\x00")`, the 4 little-endian bytes
of `count`, the 4 bytes of the binary32 `price`, and the truncated/padded
category. -/
def packBytes (r : DbRecord) : List Nat :=
  padTo 20 (r.name.take 20) ++ le4 ((r.count % 2 ^ 32).toNat) ++
    le4 (r.price % 2 ^ 32) ++ padTo 15 (r.category.take 15)

/-- Model of `pack_record`: `struct.pack(FORMAT, ...)` raises when `count`
does not fit a signed 32-bit integer, otherwise returns the fixed 43-byte
block. -/
def pack_record (r : DbRecord) : Except CodecError (List Nat) :=
  if r.count < -(2 ^ 31) ∨ 2 ^ 31 ≤ r.count then .error .countOutOfRange
  else .ok (packBytes r)

/-- Model of `unpack_record` on a 43-byte block: split the byte ranges,
decode the two text fields and strip their trailing zero bytes, read
`count` as signed 32-bit and `price` as the stored binary32 pattern. -/
def unpack_record (data : List Nat) : DbRecord :=
  { name := rstrip0 (data.take 20)
    count := toI32 (fromLE4 ((data.drop 20).take 4))
    price := fromLE4 ((data.drop 24).take 4)
    category := rstrip0 ((data.drop 28).take 15) }

/-- Fuel-indexed version of the sequential 43-byte read loop shared by
`print_db_from_file` and the search functions: `f.read(RECORD_SIZE)`
until an empty read (clean end) or a short read (corrupt tail, reported
with its byte count). -/
def readChunksAux : Nat → List Nat → List (List Nat) × Option Nat
  | 0, _ => ([], none)
  | fuel + 1, file =>
    if file.length = 0 then ([], none)
    else if file.length < RECORD_SIZE then ([], some file.length)
    else
      let rest := readChunksAux fuel (file.drop RECORD_SIZE)
      (file.take RECORD_SIZE :: rest.1, rest.2)

/-- Model of the scan performed by `print_db_from_file`: the sequence of
full 43-byte blocks read from offset 0 (printed via `unpack_record`),
together with the byte count of a trailing partial record when the file
length is not a multiple of `RECORD_SIZE`.  The fuel `file.length + 1`
is enough for the whole file. -/
def print_db_from_file (file : List Nat) : List (List Nat) × Option Nat :=
  readChunksAux (file.length + 1) file

/-- `f.seek(off); f.read(len)`. -/
def readAt (file : List Nat) (off len : Nat) : List Nat :=
  (file.drop off).take len

/-- `f.seek(off); f.write(data)` on a file opened `rb+`: overwrite in
place, extending the file when the write reaches past the end. -/
def writeAt (file : List Nat) (off : Nat) (data : List Nat) : List Nat :=
  file.take off ++ List.replicate (off - file.length) 0 ++ data ++
    file.drop (off + data.length)

/-- The named error conditions the store operations report (each is a
printed message plus an early `return` in the script). -/
inductive StoreError where
  | sizeInconsistency
  | positionOutOfRange
  | emptyStore
  | invalidQuery
  | packError
deriving DecidableEq, Repr

/-- The backwards shifting loop of `insert_record_at`:
`for i in range(n - 1, pos - 2, -1)` copies record `i` one slot to the
right; `cnt` is the number of remaining iterations, `i` the current index. -/
def insertShiftAux : List Nat → Nat → Nat → List Nat
  | file, _, 0 => file
  | file, i, cnt + 1 =>
    insertShiftAux
      (writeAt file ((i + 1) * RECORD_SIZE) (readAt file (i * RECORD_SIZE) RECORD_SIZE))
      (i - 1) cnt

/-- The forwards shifting loop of `delete_record`: `for i in range(pos, n)`
copies record `i` one slot to the left; `cnt` is the number of remaining
iterations, `i` the current index. -/
def deleteShiftAux : List Nat → Nat → Nat → List Nat
  | file, _, 0 => file
  | file, i, cnt + 1 =>
    deleteShiftAux
      (writeAt file ((i - 1) * RECORD_SIZE) (readAt file (i * RECORD_SIZE) RECORD_SIZE))
      (i + 1) cnt

/-- Model of `insert_record_at`: validate the position lower bound, the
file-size consistency and the position upper bound (in the script's
order), encode the record (`struct` may raise here), then either append
at end-of-file or shift the tail right and write the new record at
`(pos - 1) * RECORD_SIZE`.  Errors leave the file untouched (the script
returns before opening the file for writing). -/
def insert_record_at (file : List Nat) (position_1based : Int) (r : DbRecord) :
    Except StoreError (List Nat) :=
  if position_1based < 1 then .error .positionOutOfRange
  else
    let n := file.length / RECORD_SIZE
    if file.length % RECORD_SIZE ≠ 0 then .error .sizeInconsistency
    else if position_1based > (n : Int) + 1 then .error .positionOutOfRange
    else
      match pack_record r with
      | .error _ => .error .packError
      | .ok new_data =>
        if position_1based = (n : Int) + 1 then .ok (file ++ new_data)
        else
          let p := position_1based.toNat
          .ok (writeAt (insertShiftAux file (n - 1) (n - p + 1))
                ((p - 1) * RECORD_SIZE) new_data)

/-- Model of `delete_record`: validate the position lower bound, the
file-size consistency, emptiness and the position upper bound (in the
script's order), then shift the tail left and truncate the file to
`(n - 1) * RECORD_SIZE` bytes. -/
def delete_record (file : List Nat) (position_1based : Int) :
    Except StoreError (List Nat) :=
  if position_1based < 1 then .error .positionOutOfRange
  else if file.length % RECORD_SIZE ≠ 0 then .error .sizeInconsistency
  else
    let n := file.length / RECORD_SIZE
    if n = 0 then .error .emptyStore
    else if position_1based > (n : Int) then .error .positionOutOfRange
    else
      let p := position_1based.toNat
      .ok ((deleteShiftAux file p (n - p)).take ((n - 1) * RECORD_SIZE))

/-- Model of the spec's `Initialize(records)` contract realised by
`init_db_binary`: truncate the file and write `pack_record(r)` for each
record of the sequence back to back (the script draws the sequence from
its `generate_record` generator; the model takes it as an argument). -/
def init_db_binary : List DbRecord → Except CodecError (List Nat)
  | [] => .ok []
  | r :: rest =>
    match pack_record r, init_db_binary rest with
    | .ok b, .ok bs => .ok (b ++ bs)
    | .error e, _ => .error e
    | .ok _, .error e => .error e

/-- ASCII whitespace, as stripped by `str.strip()`. -/
def isSpaceByte (b : Nat) : Bool :=
  b == 32 || b == 9 || b == 10 || b == 13 || b == 11 || b == 12

/-- `str.strip()`: drop leading and trailing whitespace. -/
def pyStrip (l : List Nat) : List Nat :=
  ((l.dropWhile isSpaceByte).reverse.dropWhile isSpaceByte).reverse

/-- ASCII decimal digit. -/
def isDigitByte (b : Nat) : Bool := 48 ≤ b && b ≤ 57

/-- Value of an ASCII digit string. -/
def digitsToNat (l : List Nat) : Nat :=
  l.foldl (fun a d => a * 10 + (d - 48)) 0

/-- A non-empty all-digit string, as `int(...)` requires after the sign. -/
def parseDigits (l : List Nat) : Option Nat :=
  if !l.isEmpty && l.all isDigitByte then some (digitsToNat l) else none

/-- Model of `int(s)` on an already stripped ASCII literal: optional sign
followed by at least one digit; anything else raises `ValueError`. -/
def pyIntParse (l : List Nat) : Option Int :=
  match l with
  | 43 :: rest => (parseDigits rest).map (fun n => (n : Int))
  | 45 :: rest => (parseDigits rest).map (fun n => -(n : Int))
  | _ => (parseDigits l).map (fun n => (n : Int))

/-- An exact rational value `num / den` with a positive denominator,
kept unnormalized so that every comparison is computable by
cross-multiplication. -/
structure ExactVal where
  num : Int
  den : Nat
deriving DecidableEq, Repr

/-- Unsigned part of a `float(s)` literal: digits with at most one dot and
at least one digit overall, valued exactly as `intpart.fracpart =
(intpart * 10 ^ k + fracpart) / 10 ^ k`. -/
def parseUFloat (l : List Nat) : Option ExactVal :=
  if l.contains 46 then
    let ip := l.takeWhile (· != 46)
    let fp := (l.dropWhile (· != 46)).tail
    if fp.contains 46 then none
    else if ip.isEmpty && fp.isEmpty then none
    else if ip.all isDigitByte && fp.all isDigitByte then
      some ⟨(digitsToNat ip * 10 ^ fp.length + digitsToNat fp : Nat), 10 ^ fp.length⟩
    else none
  else (parseDigits l).map (fun n => ⟨(n : Int), 1⟩)

/-- Model of `float(s)` on an already stripped ASCII literal: optional
sign followed by a decimal number. -/
def pyFloatParse (l : List Nat) : Option ExactVal :=
  match l with
  | 43 :: rest => parseUFloat rest
  | 45 :: rest => (parseUFloat rest).map (fun t => ⟨-t.num, t.den⟩)
  | _ => parseUFloat l

/-- Sign bit of a binary32 pattern. -/
def f32Signbit (bits : Nat) : Bool := bits / 2 ^ 31 % 2 == 1

/-- Exponent field of a binary32 pattern. -/
def f32ExponentField (bits : Nat) : Nat := bits / 2 ^ 23 % 2 ^ 8

/-- Fraction field of a binary32 pattern. -/
def f32FractionField (bits : Nat) : Nat := bits % 2 ^ 23

/-- Numerator of the exact value of a finite binary32 pattern over the
common denominator `f32Den` (subnormals have exponent field 0; the
formula is meaningful only when the exponent field is below 255, which
every use guards). -/
def f32Num (bits : Nat) : Int :=
  (if f32Signbit bits then -1 else 1) *
    (if f32ExponentField bits = 0 then (f32FractionField bits : Int)
     else ((2 ^ 23 + f32FractionField bits) * 2 ^ f32ExponentField bits : Nat))

/-- Denominator of the exact value of a finite binary32 pattern: the
value is `f32Num bits / f32Den bits` (for subnormals
`frac * 2 ^ -149`, for normals `(2 ^ 23 + frac) * 2 ^ (e - 150)`). -/
def f32Den (bits : Nat) : Nat :=
  if f32ExponentField bits = 0 then 2 ^ 149 else 2 ^ 150

/-- Python `price > target` for a binary32 `price` and a finite rational
target, by cross-multiplication: NaN compares false, +inf is greater
than every finite value. -/
def f32GtVal (bits : Nat) (t : ExactVal) : Bool :=
  if f32ExponentField bits = 255 then f32FractionField bits == 0 && !f32Signbit bits
  else decide (t.num * (f32Den bits : Int) < f32Num bits * (t.den : Int))

/-- Python `price < target` for a binary32 `price` and a finite rational
target: NaN compares false, -inf is smaller than every finite value. -/
def f32LtVal (bits : Nat) (t : ExactVal) : Bool :=
  if f32ExponentField bits = 255 then f32FractionField bits == 0 && f32Signbit bits
  else decide (f32Num bits * (t.den : Int) < t.num * (f32Den bits : Int))

/-- Python `price == target` for a binary32 `price` and a finite rational
target: NaN and the infinities compare false. -/
def f32EqVal (bits : Nat) (t : ExactVal) : Bool :=
  if f32ExponentField bits = 255 then false
  else f32Num bits * (t.den : Int) == t.num * (f32Den bits : Int)

/-- The comparison dispatch of `digit_search` on the price field
(`op` is the leading byte of the condition: 62 is `>`, 60 is `<`, 61 is `=`). -/
def f32CmpOp (op : Nat) (bits : Nat) (t : ExactVal) : Bool :=
  if op = 62 then f32GtVal bits t else if op = 60 then f32LtVal bits t
  else f32EqVal bits t

/-- The comparison dispatch of `digit_search` on the count field. -/
def intCmpOp (op : Nat) (c k : Int) : Bool :=
  if op = 62 then decide (k < c) else if op = 60 then decide (c < k) else c == k

/-- The record loop shared by the three search functions: walk the decoded
records carrying the 1-based position `idx`, keeping the matches. -/
def searchLoop (idx : Nat) (chunks : List (List Nat)) (pred : DbRecord → Bool) :
    List (Nat × DbRecord) :=
  match chunks with
  | [] => []
  | c :: rest =>
    let r := unpack_record c
    if pred r then (idx, r) :: searchLoop (idx + 1) rest pred
    else searchLoop (idx + 1) rest pred

/-- Matches of a predicate over a whole file, with 1-based positions (the
search functions run it only after the size check, so the scan meets no
corrupt tail). -/
def searchHits (file : List Nat) (pred : DbRecord → Bool) : List (Nat × DbRecord) :=
  searchLoop 1 (print_db_from_file file).1 pred

/-- The per-field equality used by `one_field_search` and
`two_fields_search`: exact text equality for name/category, `int(value)`
equality for count (a non-parsing value never matches), `float(value)`
equality for price. -/
def fieldMatches (field_num : Int) (value : List Nat) (r : DbRecord) : Bool :=
  if field_num = 1 then r.name == value
  else if field_num = 2 then
    match pyIntParse value with
    | some k => r.count == k
    | none => false
  else if field_num = 3 then
    match pyFloatParse value with
    | some t => f32EqVal r.price t
    | none => false
  else r.category == value

/-- Model of `one_field_search`: size check, emptiness check, field-number
validation (in the script's order), then the streaming match loop. -/
def one_field_search (file : List Nat) (field_num : Int) (value : List Nat) :
    Except StoreError (List (Nat × DbRecord)) :=
  if file.length % RECORD_SIZE ≠ 0 then .error .sizeInconsistency
  else if file.length / RECORD_SIZE = 0 then .error .emptyStore
  else if field_num ≠ 1 ∧ field_num ≠ 2 ∧ field_num ≠ 3 ∧ field_num ≠ 4 then
    .error .invalidQuery
  else .ok (searchHits file (fieldMatches field_num value))

/-- Model of `two_fields_search`: duplicate-field and field-range
validation first (the script checks the arguments before the file), then
size and emptiness checks, then the conjunctive match loop. -/
def two_fields_search (file : List Nat) (f1 : Int) (v1 : List Nat)
    (f2 : Int) (v2 : List Nat) : Except StoreError (List (Nat × DbRecord)) :=
  if f1 = f2 then .error .invalidQuery
  else if (f1 ≠ 1 ∧ f1 ≠ 2 ∧ f1 ≠ 3 ∧ f1 ≠ 4) ∨ (f2 ≠ 1 ∧ f2 ≠ 2 ∧ f2 ≠ 3 ∧ f2 ≠ 4) then
    .error .invalidQuery
  else if file.length % RECORD_SIZE ≠ 0 then .error .sizeInconsistency
  else if file.length / RECORD_SIZE = 0 then .error .emptyStore
  else .ok (searchHits file (fun r => fieldMatches f1 v1 r && fieldMatches f2 v2 r))

/-- Model of `digit_search`: strip the condition, check the operator byte,
strip the literal, dispatch on whether the literal contains a dot
(fractional literal selects the price field parsed as float, otherwise
the count field parsed as integer), then size and emptiness checks and
the comparison loop.  All the query validation happens before any byte
of a record is read. -/
def digit_search (file : List Nat) (condition : List Nat) :
    Except StoreError (List (Nat × DbRecord)) :=
  match pyStrip condition with
  | [] => .error .invalidQuery
  | op :: rest =>
    if op = 62 ∨ op = 60 ∨ op = 61 then
      let num_str := pyStrip rest
      if num_str = [] then .error .invalidQuery
      else if num_str.contains 46 then
        match pyFloatParse num_str with
        | none => .error .invalidQuery
        | some target =>
          if file.length % RECORD_SIZE ≠ 0 then .error .sizeInconsistency
          else if file.length / RECORD_SIZE = 0 then .error .emptyStore
          else .ok (searchHits file (fun r => f32CmpOp op r.price target))
      else
        match pyIntParse num_str with
        | none => .error .invalidQuery
        | some target =>
          if file.length % RECORD_SIZE ≠ 0 then .error .sizeInconsistency
          else if file.length / RECORD_SIZE = 0 then .error .emptyStore
          else .ok (searchHits file (fun r => intCmpOp op r.count target))
    else .error .invalidQuery

/-- The guard-then-scan shape shared by both numeric branches of
`digit_search`. -/
def numGuarded (file : List Nat) (pred : DbRecord → Bool) :
    Except StoreError (List (Nat × DbRecord)) :=
  if file.length % RECORD_SIZE ≠ 0 then .error .sizeInconsistency
  else if file.length / RECORD_SIZE = 0 then .error .emptyStore
  else .ok (searchHits file pred)

/-- A parsed comparison query, as the claim describes it: the literal's
lexical form selected either the price field (float comparison) or the
count field (integer comparison). -/
inductive ClaimQuery where
  | priceCmp (op : Nat) (t : ExactVal)
  | countCmp (op : Nat) (k : Int)
deriving DecidableEq

/-- Modelled from the spec's description of `FindByComparison`: a
condition is an operator byte followed by a literal; a literal containing
the fractional separator selects the price field parsed as float, any
other literal selects the count field parsed as integer; a bad operator
or an unparseable literal yields no query. -/
def claimParse (condition : List Nat) : Option ClaimQuery :=
  match pyStrip condition with
  | [] => none
  | c :: rest =>
    if c = 62 ∨ c = 60 ∨ c = 61 then
      let lit := pyStrip rest
      if lit.contains 46 then (pyFloatParse lit).map (ClaimQuery.priceCmp c)
      else (pyIntParse lit).map (ClaimQuery.countCmp c)
    else none

/-- All blocks of a chunk list have the fixed record width. -/
def Chunks43 (cs : List (List Nat)) : Prop :=
  ∀ c ∈ cs, c.length = RECORD_SIZE

/-- The record `("apple", 10, 3.5, "fruit")` of the spec's end-to-end
scenario: name and category as UTF-8 bytes, price 3.5 as the binary32
pattern `0x40600000`. -/
def appleRec : DbRecord :=
  { name := [97, 112, 112, 108, 101], count := 10, price := 1080033280,
    category := [102, 114, 117, 105, 116] }

/-- The record `("book", 2, 799.0, "goods")` of the spec's end-to-end
scenario: price 799.0 as the binary32 pattern `0x4447C000`. -/
def bookRec : DbRecord :=
  { name := [98, 111, 111, 107], count := 2, price := 1145552896,
    category := [103, 111, 111, 100, 115] }

/-- The two-record store file of the end-to-end scenario. -/
def storeC8 : List Nat := packBytes appleRec ++ packBytes bookRec

/-- A record whose name is a single zero byte: it fits every fixed width,
yet decoding strips the trailing zero byte, so the round trip loses it. -/
def cexRec3 : DbRecord := { name := [0], count := 0, price := 0, category := [] }

/-- A well-typed record whose count does not fit a signed 32-bit integer,
making `struct.pack` raise inside the encoder. -/
def cexRec7 : DbRecord := { name := [], count := 2 ^ 31, price := 0, category := [] }

/-- A small record used to instantiate the universally quantified claims. -/
def recW : DbRecord := { name := [1, 2], count := 5, price := 7, category := [3] }

/-! ### Basic list helpers -/

theorem take_append_le {α : Type} (l1 l2 : List α) (n : Nat) (h : n ≤ l1.length) :
    (l1 ++ l2).take n = l1.take n := by
  have h2 : (l1.take n).length = n := by simp [Nat.min_eq_left h]
  calc (l1 ++ l2).take n = ((l1.take n ++ l1.drop n) ++ l2).take n := by
        rw [List.take_append_drop]
    _ = (l1.take n ++ (l1.drop n ++ l2)).take n := by rw [List.append_assoc]
    _ = l1.take n := List.take_left' h2

theorem drop_append_le {α : Type} (l1 l2 : List α) (n : Nat) (h : n ≤ l1.length) :
    (l1 ++ l2).drop n = l1.drop n ++ l2 := by
  have h2 : (l1.take n).length = n := by simp [Nat.min_eq_left h]
  calc (l1 ++ l2).drop n = (l1.take n ++ (l1.drop n ++ l2)).drop n := by
        rw [← List.append_assoc, List.take_append_drop]
    _ = l1.drop n ++ l2 := List.drop_left' h2

theorem take_append_add {α : Type} (A X : List α) (k : Nat) :
    (A ++ X).take (A.length + k) = A ++ X.take k := by
  induction A with
  | nil => simp
  | cons a t ih => simp [List.length_cons, Nat.succ_add, ih]

theorem drop_append_add {α : Type} (A X : List α) (k : Nat) :
    (A ++ X).drop (A.length + k) = X.drop k := by
  induction A with
  | nil => simp
  | cons a t ih => simp [List.length_cons, Nat.succ_add, ih]

theorem take_take_le {α : Type} (l : List α) (n m : Nat) (h : n ≤ m) :
    (l.take m).take n = l.take n := by
  induction l generalizing n m with
  | nil => simp
  | cons a t ih =>
    cases n with
    | zero => simp
    | succ n =>
      cases m with
      | zero => omega
      | succ m =>
        simp only [List.take_succ_cons]
        rw [ih n m (by omega)]

theorem take_drop_take {α : Type} (l : List α) (a b c : Nat) (h : b + c ≤ a) :
    ((l.take a).drop b).take c = (l.drop b).take c := by
  rw [List.take_drop, List.take_drop, take_take_le l (b + c) a h]

/-! ### Chunk lists -/

theorem chunks43_take (cs : List (List Nat)) (k : Nat) (h : Chunks43 cs) :
    Chunks43 (cs.take k) :=
  fun c hc => h c (List.take_subset k cs hc)

theorem chunks43_drop (cs : List (List Nat)) (k : Nat) (h : Chunks43 cs) :
    Chunks43 (cs.drop k) :=
  fun c hc => h c (List.drop_subset k cs hc)

theorem chunks43_append (a b : List (List Nat)) (ha : Chunks43 a) (hb : Chunks43 b) :
    Chunks43 (a ++ b) := by
  intro c hc
  rcases List.mem_append.1 hc with h | h
  · exact ha c h
  · exact hb c h

theorem chunks43_cons (c : List Nat) (t : List (List Nat))
    (hc : c.length = RECORD_SIZE) (ht : Chunks43 t) : Chunks43 (c :: t) := by
  intro x hx
  rcases List.mem_cons.1 hx with h | h
  · exact h ▸ hc
  · exact ht x h

theorem chunks43_getD (cs : List (List Nat)) (k : Nat) (h : Chunks43 cs)
    (hk : k < cs.length) : (cs.getD k []).length = RECORD_SIZE := by
  rw [List.getD_eq_getElem cs [] hk]
  exact h _ (List.getElem_mem hk)

theorem length_flatten43 (cs : List (List Nat)) (h : Chunks43 cs) :
    cs.flatten.length = RECORD_SIZE * cs.length := by
  induction cs with
  | nil => simp
  | cons c t ih =>
    have hc : c.length = RECORD_SIZE := h c (List.mem_cons_self c t)
    have ht : Chunks43 t := fun x hx => h x (List.mem_cons_of_mem c hx)
    simp [List.flatten_cons, hc, ih ht, Nat.mul_succ, Nat.add_comm]

/-! ### File write/read primitives over concatenations -/

theorem writeAt_append (a b d : List Nat) (off : Nat) :
    writeAt (a ++ b) (a.length + off) d = a ++ writeAt b off d := by
  unfold writeAt
  rw [take_append_add, Nat.add_assoc, drop_append_add a b (off + d.length),
    List.length_append]
  have h3 : a.length + off - (a.length + b.length) = off - b.length := by omega
  simp [h3, List.append_assoc]

theorem readAt_append (a b : List Nat) (off len : Nat) :
    readAt (a ++ b) (a.length + off) len = readAt b off len := by
  unfold readAt
  rw [drop_append_add]

theorem readAt_flatten (cs : List (List Nat)) (k : Nat) (hcs : Chunks43 cs)
    (hk : k < cs.length) :
    readAt cs.flatten (k * RECORD_SIZE) RECORD_SIZE = cs.getD k [] := by
  induction k generalizing cs with
  | zero =>
    cases cs with
    | nil => simp at hk
    | cons c t =>
      have hc : c.length = RECORD_SIZE := hcs c (List.mem_cons_self c t)
      simp only [List.flatten_cons, Nat.zero_mul, readAt, List.drop_zero, List.getD]
      rw [take_append_le _ _ _ (le_of_eq hc.symm), ← hc, List.take_length]
      rfl
  | succ k ih =>
    cases cs with
    | nil => simp at hk
    | cons c t =>
      have hc : c.length = RECORD_SIZE := hcs c (List.mem_cons_self c t)
      have ht : Chunks43 t := fun x hx => hcs x (List.mem_cons_of_mem c hx)
      have harith : (k + 1) * RECORD_SIZE = c.length + k * RECORD_SIZE := by
        rw [hc]; ring
      rw [List.flatten_cons, harith, readAt_append]
      have := ih t ht (by simpa using hk)
      simpa using this

theorem writeAt_flatten (cs : List (List Nat)) (d : List Nat) (k : Nat)
    (hcs : Chunks43 cs) (hd : d.length = RECORD_SIZE) (hk : k ≤ cs.length) :
    writeAt cs.flatten (k * RECORD_SIZE) d =
      (cs.take k ++ d :: cs.drop (k + 1)).flatten := by
  induction k generalizing cs with
  | zero =>
    cases cs with
    | nil => simp [writeAt]
    | cons c t =>
      have hc : c.length = RECORD_SIZE := hcs c (List.mem_cons_self c t)
      simp only [List.flatten_cons, Nat.zero_mul, writeAt, List.take_zero,
        List.nil_append, Nat.zero_sub, List.replicate_zero, Nat.zero_add,
        List.take_nil, List.drop_succ_cons, List.drop_zero]
      rw [drop_append_le _ _ _ (by omega), hd, ← hc, List.drop_length]
      simp
  | succ k ih =>
    cases cs with
    | nil => simp at hk
    | cons c t =>
      have hc : c.length = RECORD_SIZE := hcs c (List.mem_cons_self c t)
      have ht : Chunks43 t := fun x hx => hcs x (List.mem_cons_of_mem c hx)
      have harith : (k + 1) * RECORD_SIZE = c.length + k * RECORD_SIZE := by
        rw [hc]; ring
      rw [List.flatten_cons, harith, writeAt_append,
        ih t ht (by simpa using hk)]
      simp

/-! ### Net effect of the shifting loops -/

theorem insertShiftAux_flatten : ∀ (m p : Nat) (cs : List (List Nat)),
    Chunks43 cs → p + m + 1 ≤ cs.length →
    insertShiftAux cs.flatten (p + m) (m + 1) =
      (cs.take (p + 1) ++ (cs.drop p).take (m + 1) ++ cs.drop (p + m + 2)).flatten := by
  intro m
  induction m with
  | zero =>
    intro p cs hcs hlen
    have hp : p < cs.length := by omega
    have hg : (cs.getD p []).length = RECORD_SIZE := chunks43_getD cs p hcs hp
    show insertShiftAux cs.flatten p 1 = _
    unfold insertShiftAux
    rw [readAt_flatten cs p hcs hp,
      writeAt_flatten cs (cs.getD p []) (p + 1) hcs hg (by omega)]
    unfold insertShiftAux
    have hdrop : (cs.drop p).take 1 = [cs.getD p []] := by
      rw [List.drop_eq_getElem_cons hp, List.getD_eq_getElem cs [] hp]
      rfl
    rw [hdrop]
    simp
  | succ m ih =>
    intro p cs hcs hlen
    have hi : p + m + 1 < cs.length := by omega
    have hg : (cs.getD (p + m + 1) []).length = RECORD_SIZE :=
      chunks43_getD cs (p + m + 1) hcs hi
    have hstep : insertShiftAux cs.flatten (p + (m + 1)) (m + 1 + 1) =
        insertShiftAux
          (writeAt cs.flatten ((p + m + 1 + 1) * RECORD_SIZE)
            (readAt cs.flatten ((p + m + 1) * RECORD_SIZE) RECORD_SIZE))
          (p + m) (m + 1) := by
      show insertShiftAux cs.flatten (p + m + 1) (m + 2) = _
      conv_lhs => rw [insertShiftAux]
      norm_num
    rw [hstep, readAt_flatten cs (p + m + 1) hcs hi,
      writeAt_flatten cs (cs.getD (p + m + 1) []) (p + m + 2) hcs hg (by omega)]
    set g := cs.getD (p + m + 1) [] with hgdef
    set cs2 := cs.take (p + m + 2) ++ g :: cs.drop (p + m + 3) with hcs2
    have htklen : (cs.take (p + m + 2)).length = p + m + 2 := by
      simp [Nat.min_eq_left (by omega : p + m + 2 ≤ cs.length)]
    have hcs2chunks : Chunks43 cs2 :=
      chunks43_append _ _ (chunks43_take cs _ hcs)
        (chunks43_cons _ _ hg (chunks43_drop cs _ hcs))
    have hcs2len : p + m + 1 ≤ cs2.length := by
      rw [hcs2]
      simp only [List.length_append, List.length_cons, htklen]
      omega
    rw [ih p cs2 hcs2chunks hcs2len]
    have e1 : cs2.take (p + 1) = cs.take (p + 1) := by
      rw [hcs2, take_append_le _ _ _ (by omega),
        take_take_le cs (p + 1) (p + m + 2) (by omega)]
    have e2 : (cs2.drop p).take (m + 1) = (cs.drop p).take (m + 1) := by
      rw [hcs2, drop_append_le _ _ _ (by omega),
        take_append_le _ _ _ (by simp [htklen]; omega),
        take_drop_take cs (p + m + 2) p (m + 1) (by omega)]
    have e3 : cs2.drop (p + m + 2) = g :: cs.drop (p + m + 3) := by
      rw [hcs2, List.drop_left' htklen]
    have e4 : (cs.drop p).take (m + 1 + 1) = (cs.drop p).take (m + 1) ++ [g] := by
      have hlt : m + 1 < (cs.drop p).length := by simp; omega
      rw [List.take_succ]
      have : (cs.drop p)[m + 1]? = some ((cs.drop p).getD (m + 1) []) := by
        rw [List.getD_eq_getElem _ [] hlt, List.getElem?_eq_getElem hlt]
      rw [this]
      have : (cs.drop p).getD (m + 1) [] = g := by
        rw [List.getD_eq_getElem _ [] hlt, hgdef,
          List.getD_eq_getElem cs [] hi, List.getElem_drop]
        rfl
      rw [this]
      rfl
    rw [e1, e2, e3, e4]
    have e5 : cs.drop (p + (m + 1) + 2) = cs.drop (p + m + 3) := rfl
    rw [e5]
    simp

theorem deleteShiftAux_flatten : ∀ (cnt q : Nat) (cs : List (List Nat)),
    Chunks43 cs → cs.length = q + 1 + cnt →
    deleteShiftAux cs.flatten (q + 1) cnt =
      (cs.take q ++ cs.drop (q + 1) ++ cs.drop (cs.length - 1)).flatten := by
  intro cnt
  induction cnt with
  | zero =>
    intro q cs hcs hlen
    unfold deleteShiftAux
    rw [List.drop_of_length_le (by omega), hlen]
    have : q + 1 + 0 - 1 = q := by omega
    rw [this]
    simp
  | succ cnt ih =>
    intro q cs hcs hlen
    have hq1 : q + 1 < cs.length := by omega
    have hg : (cs.getD (q + 1) []).length = RECORD_SIZE :=
      chunks43_getD cs (q + 1) hcs hq1
    have hstep : deleteShiftAux cs.flatten (q + 1) (cnt + 1) =
        deleteShiftAux
          (writeAt cs.flatten ((q + 1 - 1) * RECORD_SIZE)
            (readAt cs.flatten ((q + 1) * RECORD_SIZE) RECORD_SIZE))
          (q + 1 + 1) cnt := by
      conv_lhs => rw [deleteShiftAux]
    rw [hstep]
    have : q + 1 - 1 = q := by omega
    rw [this, readAt_flatten cs (q + 1) hcs hq1,
      writeAt_flatten cs (cs.getD (q + 1) []) q hcs hg (by omega)]
    set g := cs.getD (q + 1) [] with hgdef
    set cs2 := cs.take q ++ g :: cs.drop (q + 1) with hcs2
    have htklen : (cs.take q).length = q := by
      simp [Nat.min_eq_left (by omega : q ≤ cs.length)]
    have hcs2chunks : Chunks43 cs2 :=
      chunks43_append _ _ (chunks43_take cs _ hcs)
        (chunks43_cons _ _ hg (chunks43_drop cs _ hcs))
    have hcs2len : cs2.length = q + 1 + 1 + cnt := by
      rw [hcs2]
      simp [htklen]
      omega
    rw [ih (q + 1) cs2 hcs2chunks hcs2len]
    have e1 : cs2.take (q + 1) = cs.take q ++ [g] := by
      rw [hcs2]
      have : q + 1 = (cs.take q).length + 1 := by rw [htklen]
      rw [this, take_append_add]
      rfl
    have h5 : q + 1 + 1 = (cs.take q).length + 2 := by rw [htklen]
    have e2 : cs2.drop (q + 1 + 1) = cs.drop (q + 2) := by
      conv_lhs => rw [hcs2, h5, drop_append_add]
      show (cs.drop (q + 1)).drop 1 = cs.drop (q + 2)
      rw [List.drop_drop]
    have h6 : cs2.length - 1 = (cs.take q).length + (cnt + 1) := by
      rw [hcs2len, htklen]
      omega
    have e3 : cs2.drop (cs2.length - 1) = cs.drop (cs.length - 1) := by
      conv_lhs => rw [h6, hcs2, drop_append_add]
      show (cs.drop (q + 1)).drop cnt = cs.drop (cs.length - 1)
      rw [List.drop_drop]
      congr 1
      omega
    rw [e1, e2, e3]
    have e4 : [g] ++ cs.drop (q + 2) = cs.drop (q + 1) := by
      rw [List.drop_eq_getElem_cons hq1, hgdef, List.getD_eq_getElem cs [] hq1]
      rfl
    rw [List.append_assoc (cs.take q) [g], e4]

/-! ### The scan loop -/

theorem readChunksAux_spec : ∀ (cs : List (List Nat)) (r : List Nat) (fuel : Nat),
    Chunks43 cs → r.length < RECORD_SIZE → (cs.flatten ++ r).length < fuel →
    readChunksAux fuel (cs.flatten ++ r) =
      (cs, if r.length = 0 then none else some r.length) := by
  intro cs
  induction cs with
  | nil =>
    intro r fuel hcs hr hfuel
    simp only [List.flatten_nil, List.nil_append] at hfuel ⊢
    cases fuel with
    | zero => omega
    | succ fuel =>
      unfold readChunksAux
      by_cases h0 : r.length = 0
      · simp [h0]
      · simp [h0, hr]
  | cons c t ih =>
    intro r fuel hcs hr hfuel
    have hc : c.length = RECORD_SIZE := hcs c (List.mem_cons_self c t)
    have ht : Chunks43 t := fun x hx => hcs x (List.mem_cons_of_mem c hx)
    rw [List.flatten_cons, List.append_assoc]
    have hlen : (c ++ (t.flatten ++ r)).length = RECORD_SIZE + (t.flatten ++ r).length := by
      simp [hc]
    cases fuel with
    | zero =>
      rw [List.flatten_cons, List.append_assoc] at hfuel
      omega
    | succ fuel =>
      rw [List.flatten_cons, List.append_assoc] at hfuel
      unfold readChunksAux
      rw [if_neg (by rw [hlen]; simp [RECORD_SIZE]),
        if_neg (by rw [hlen]; omega),
        take_append_le _ _ _ (le_of_eq hc.symm),
        drop_append_le _ _ _ (le_of_eq hc.symm),
        ← hc, List.take_length, List.drop_length]
      simp only [List.nil_append,
        ih r fuel ht hr (by rw [hlen] at hfuel; omega)]

theorem print_db_spec (cs : List (List Nat)) (r : List Nat)
    (hcs : Chunks43 cs) (hr : r.length < RECORD_SIZE) :
    print_db_from_file (cs.flatten ++ r) =
      (cs, if r.length = 0 then none else some r.length) := by
  unfold print_db_from_file
  exact readChunksAux_spec cs r _ hcs hr (by omega)

theorem print_db_flatten (cs : List (List Nat)) (hcs : Chunks43 cs) :
    print_db_from_file cs.flatten = (cs, none) := by
  have := print_db_spec cs [] hcs (by simp [RECORD_SIZE])
  simpa using this

/-! ### Codec helpers -/

theorem length_le4 (n : Nat) : (le4 n).length = 4 := rfl

theorem fromLE4_le4 (n : Nat) : fromLE4 (le4 n) = n % 2 ^ 32 := by
  simp [le4, fromLE4]
  omega

theorem length_padTo (w : Nat) (l : List Nat) (h : l.length ≤ w) :
    (padTo w l).length = w := by
  simp only [padTo, List.length_append, List.length_replicate]
  omega

theorem length_padTo_take (w : Nat) (l : List Nat) :
    (padTo w (l.take w)).length = w :=
  length_padTo w (l.take w) (by simp)

theorem length_packBytes (r : DbRecord) : (packBytes r).length = RECORD_SIZE := by
  simp only [packBytes, List.length_append, length_le4,
    length_padTo_take, RECORD_SIZE]

theorem rstrip0_append_zeros (l : List Nat) (k : Nat) :
    rstrip0 (l ++ List.replicate k 0) = rstrip0 l := by
  unfold rstrip0
  rw [List.reverse_append, List.reverse_replicate]
  congr 1
  induction k with
  | zero => simp
  | succ k ih => simpa using ih

theorem dropWhile_dropWhile {α : Type} (p : α → Bool) (l : List α) :
    (l.dropWhile p).dropWhile p = l.dropWhile p := by
  induction l with
  | nil => simp
  | cons a t ih =>
    by_cases h : p a
    · simpa [List.dropWhile_cons, h] using ih
    · simp [List.dropWhile_cons, h]

theorem rstrip0_idem (l : List Nat) : rstrip0 (rstrip0 l) = rstrip0 l := by
  unfold rstrip0
  rw [List.reverse_reverse, dropWhile_dropWhile]

theorem rstrip0_length_le (l : List Nat) : (rstrip0 l).length ≤ l.length := by
  unfold rstrip0
  have h := (List.dropWhile_sublist (l := l.reverse) (· == 0)).length_le
  simpa using h

theorem rstrip0_decomp (l : List Nat) :
    ∃ k, l = rstrip0 l ++ List.replicate k 0 := by
  refine ⟨(l.reverse.takeWhile (· == 0)).length, ?_⟩
  unfold rstrip0
  have h1 : l.reverse.takeWhile (· == 0) =
      List.replicate (l.reverse.takeWhile (· == 0)).length 0 := by
    apply List.eq_replicate_of_mem
    intro b hb
    have := List.mem_takeWhile_imp hb
    simpa using this
  conv_lhs => rw [← l.reverse_reverse,
    ← List.takeWhile_append_dropWhile (p := (· == 0)) (l := l.reverse)]
  rw [List.reverse_append]
  congr 1
  rw [h1, List.reverse_replicate, List.length_replicate]

theorem toI32_emod (c : Int) (h1 : -(2 ^ 31) ≤ c) (h2 : c < 2 ^ 31) :
    toI32 ((c % 2 ^ 32).toNat % 2 ^ 32) = c := by
  unfold toI32
  have hp31 : (2 : Int) ^ 31 = 2147483648 := by norm_num
  have hp32 : (2 : Int) ^ 32 = 4294967296 := by norm_num
  have hn31 : (2 : Nat) ^ 31 = 2147483648 := by norm_num
  have hn32 : (2 : Nat) ^ 32 = 4294967296 := by norm_num
  rw [hp31, hp32] at *
  rw [hn31, hn32]
  split_ifs with h <;> omega

theorem packBytes_split (r : DbRecord) :
    (packBytes r).take 20 = padTo 20 (r.name.take 20) ∧
    ((packBytes r).drop 20).take 4 = le4 ((r.count % 2 ^ 32).toNat) ∧
    ((packBytes r).drop 24).take 4 = le4 (r.price % 2 ^ 32) ∧
    ((packBytes r).drop 28).take 15 = padTo 15 (r.category.take 15) := by
  have hA : (padTo 20 (r.name.take 20)).length = 20 := length_padTo_take 20 r.name
  have hB : (le4 ((r.count % 2 ^ 32).toNat)).length = 4 := rfl
  have hC : (le4 (r.price % 2 ^ 32)).length = 4 := rfl
  have hD : (padTo 15 (r.category.take 15)).length = 15 := length_padTo_take 15 r.category
  unfold packBytes
  refine ⟨?_, ?_, ?_, ?_⟩
  · rw [List.append_assoc, List.append_assoc, List.take_left' hA]
  · rw [List.append_assoc, List.append_assoc, List.drop_left' hA,
      List.take_left' hB]
  · rw [List.append_assoc,
      List.drop_left' (by rw [List.length_append, hA, hB]),
      List.take_left' hC]
  · rw [List.drop_left'
        (by rw [List.length_append, List.length_append, hA, hB, hC]),
      List.take_of_length_le (le_of_eq hD)]

/-- Round trip of the codec for records whose fields fit the fixed widths
and whose text fields carry no trailing zero bytes. -/
theorem unpack_packBytes (r : DbRecord)
    (hn : r.name.length ≤ 20) (hc : r.category.length ≤ 15)
    (hn0 : rstrip0 r.name = r.name) (hc0 : rstrip0 r.category = r.category)
    (h1 : -(2 ^ 31) ≤ r.count) (h2 : r.count < 2 ^ 31) (hp : r.price < 2 ^ 32) :
    unpack_record (packBytes r) = r := by
  obtain ⟨e1, e2, e3, e4⟩ := packBytes_split r
  unfold unpack_record
  rw [e1, e2, e3, e4]
  have hname : rstrip0 (padTo 20 (r.name.take 20)) = r.name := by
    unfold padTo
    rw [rstrip0_append_zeros, List.take_of_length_le hn, hn0]
  have hcat : rstrip0 (padTo 15 (r.category.take 15)) = r.category := by
    unfold padTo
    rw [rstrip0_append_zeros, List.take_of_length_le hc, hc0]
  have hcount : toI32 (fromLE4 (le4 ((r.count % 2 ^ 32).toNat))) = r.count := by
    rw [fromLE4_le4]
    exact toI32_emod r.count h1 h2
  have hprice : fromLE4 (le4 (r.price % 2 ^ 32)) = r.price := by
    rw [fromLE4_le4]
    have hn32 : (2 : Nat) ^ 32 = 4294967296 := by norm_num
    rw [hn32] at hp ⊢
    omega
  rw [hname, hcat, hcount, hprice]

theorem toI32_range (n : Nat) (h : n < 2 ^ 32) :
    -(2 ^ 31) ≤ toI32 n ∧ toI32 n < 2 ^ 31 := by
  unfold toI32
  have hp31 : (2 : Int) ^ 31 = 2147483648 := by norm_num
  have hp32 : (2 : Int) ^ 32 = 4294967296 := by norm_num
  have hn31 : (2 : Nat) ^ 31 = 2147483648 := by norm_num
  have hn32 : (2 : Nat) ^ 32 = 4294967296 := by norm_num
  rw [hn32] at h
  rw [hp31, hp32, hn31]
  constructor <;> (split_ifs with hh <;> omega)

theorem padTo_take_append_zeros (w : Nat) (x : List Nat) (k : Nat) :
    padTo w ((x ++ List.replicate k 0).take w) = padTo w (x.take w) := by
  by_cases h : w ≤ x.length
  · rw [take_append_le _ _ _ h]
  · push_neg at h
    have hrhs : x.take w = x := List.take_of_length_le (by omega)
    have hlhs : (x ++ List.replicate k 0).take w =
        x ++ List.replicate ((w - x.length) ⊓ k) 0 := by
      rw [List.take_append_eq_append_take, List.take_of_length_le (by omega),
        List.take_replicate]
    rw [hlhs, hrhs]
    unfold padTo
    rw [List.append_assoc, ← List.replicate_add]
    congr 2
    simp only [List.length_append, List.length_replicate]
    omega

theorem padTo_take_eq_of_rstrip0_eq (w : Nat) (a b : List Nat)
    (h : rstrip0 a = rstrip0 b) :
    padTo w (a.take w) = padTo w (b.take w) := by
  obtain ⟨ka, hka⟩ := rstrip0_decomp a
  obtain ⟨kb, hkb⟩ := rstrip0_decomp b
  conv_lhs => rw [hka]
  conv_rhs => rw [hkb]
  rw [padTo_take_append_zeros, padTo_take_append_zeros, h]

/-! ### Store operation helpers -/

theorem flatten_mod (cs : List (List Nat)) (hcs : Chunks43 cs) :
    cs.flatten.length % RECORD_SIZE = 0 := by
  rw [length_flatten43 cs hcs]
  simp [Nat.mul_mod_right]

theorem flatten_div (cs : List (List Nat)) (hcs : Chunks43 cs) :
    cs.flatten.length / RECORD_SIZE = cs.length := by
  rw [length_flatten43 cs hcs]
  exact Nat.mul_div_cancel_left _ (by norm_num [RECORD_SIZE])

theorem pack_record_ok (r : DbRecord)
    (h1 : -(2 ^ 31) ≤ r.count) (h2 : r.count < 2 ^ 31) :
    pack_record r = .ok (packBytes r) := by
  unfold pack_record
  rw [if_neg (by omega)]

/-- Success path of `insert_record_at` at an interior position: the net
effect is splicing the encoded record in front of slot `p`. -/
theorem insert_shift_ok (cs : List (List Nat)) (r : DbRecord) (p : Nat)
    (hcs : Chunks43 cs) (hp1 : 1 ≤ p) (hp2 : p ≤ cs.length)
    (h1 : -(2 ^ 31) ≤ r.count) (h2 : r.count < 2 ^ 31) :
    insert_record_at cs.flatten (p : Int) r =
      .ok ((cs.take (p - 1) ++ packBytes r :: cs.drop (p - 1)).flatten) := by
  have hmod := flatten_mod cs hcs
  have hdiv := flatten_div cs hcs
  have hpack := pack_record_ok r h1 h2
  have hne : ¬((p : Int) < 1) := by omega
  have hgt : ¬((p : Int) > (cs.length : Int) + 1) := by omega
  have hne2 : ¬((p : Int) = (cs.length : Int) + 1) := by omega
  unfold insert_record_at
  rw [if_neg hne]
  simp only [hdiv, hmod, hpack, ne_eq, not_true_eq_false, not_false_eq_true,
    if_false, if_true, Int.toNat_natCast]
  rw [if_neg hgt, if_neg hne2]
  have ei : cs.length - 1 = (p - 1) + (cs.length - p) := by omega
  have ha : insertShiftAux cs.flatten ((p - 1) + (cs.length - p)) ((cs.length - p) + 1) =
      (cs.take ((p - 1) + 1) ++ (cs.drop (p - 1)).take ((cs.length - p) + 1) ++
        cs.drop ((p - 1) + (cs.length - p) + 2)).flatten :=
    insertShiftAux_flatten (cs.length - p) (p - 1) cs hcs (by omega)
  have hp' : (p - 1) + 1 = p := by omega
  have hd2 : cs.drop ((p - 1) + (cs.length - p) + 2) = [] :=
    List.drop_of_length_le (by omega)
  have hdt : (cs.drop (p - 1)).take ((cs.length - p) + 1) = cs.drop (p - 1) :=
    List.take_of_length_le (by simp; omega)
  rw [ei, ha, hp', hd2, hdt, List.append_nil]
  have hcs2 : Chunks43 (cs.take p ++ cs.drop (p - 1)) :=
    chunks43_append _ _ (chunks43_take cs _ hcs) (chunks43_drop cs _ hcs)
  have hwk : p - 1 ≤ (cs.take p ++ cs.drop (p - 1)).length := by
    simp
    omega
  rw [writeAt_flatten _ _ _ hcs2 (length_packBytes r) hwk]
  have e1 : (cs.take p ++ cs.drop (p - 1)).take (p - 1) = cs.take (p - 1) := by
    rw [take_append_le _ _ _ (by simp; omega),
      take_take_le cs (p - 1) p (by omega)]
  have htkp : (cs.take p).length = p := by
    simp
    omega
  have e2 : (cs.take p ++ cs.drop (p - 1)).drop (p - 1 + 1) = cs.drop (p - 1) := by
    have : p - 1 + 1 = (cs.take p).length + 0 := by rw [htkp]; omega
    rw [this, drop_append_add, List.drop_zero]
  rw [e1, e2]

/-- Success path of `insert_record_at` at position `n + 1`: a plain append. -/
theorem insert_append_ok (cs : List (List Nat)) (r : DbRecord)
    (hcs : Chunks43 cs)
    (h1 : -(2 ^ 31) ≤ r.count) (h2 : r.count < 2 ^ 31) :
    insert_record_at cs.flatten ((cs.length : Int) + 1) r =
      .ok (cs.flatten ++ packBytes r) := by
  have hmod := flatten_mod cs hcs
  have hdiv := flatten_div cs hcs
  have hpack := pack_record_ok r h1 h2
  unfold insert_record_at
  rw [if_neg (by omega)]
  simp only [hdiv, hmod, hpack, ne_eq, not_true_eq_false, not_false_eq_true,
    if_false, if_true, gt_iff_lt, lt_self_iff_false, ite_self]

/-- Success path of `delete_record`: the net effect is removing slot `p`
and truncating by one record. -/
theorem delete_ok (cs : List (List Nat)) (p : Nat)
    (hcs : Chunks43 cs) (hp1 : 1 ≤ p) (hp2 : p ≤ cs.length) :
    delete_record cs.flatten (p : Int) =
      .ok ((cs.take (p - 1) ++ cs.drop p).flatten) := by
  have hmod := flatten_mod cs hcs
  have hdiv := flatten_div cs hcs
  have hne : ¬((p : Int) < 1) := by omega
  have hn0 : ¬(cs.length = 0) := by omega
  have hgt : ¬((p : Int) > (cs.length : Int)) := by omega
  unfold delete_record
  rw [if_neg hne]
  simp only [hdiv, hmod, ne_eq, not_true_eq_false, not_false_eq_true,
    if_false, if_true, Int.toNat_natCast]
  rw [if_neg hn0, if_neg hgt]
  have ha2 : deleteShiftAux cs.flatten p (cs.length - p) =
      (cs.take (p - 1) ++ cs.drop p ++ cs.drop (cs.length - 1)).flatten := by
    have hh := deleteShiftAux_flatten (cs.length - p) (p - 1) cs hcs (by omega)
    rw [show (p - 1) + 1 = p from by omega] at hh
    exact hh
  rw [ha2]
  have hAB : Chunks43 (cs.take (p - 1) ++ cs.drop p) :=
    chunks43_append _ _ (chunks43_take cs _ hcs) (chunks43_drop cs _ hcs)
  have hABlen : (cs.take (p - 1) ++ cs.drop p).length = cs.length - 1 := by
    simp
    omega
  rw [List.flatten_append]
  have hlenAB : ((cs.take (p - 1) ++ cs.drop p).flatten).length =
      (cs.length - 1) * RECORD_SIZE := by
    rw [length_flatten43 _ hAB, hABlen, Nat.mul_comm]
  rw [List.take_left' hlenAB]

/-- Size inconsistency aborts `insert_record_at` for every position ≥ 1
(positions below 1 are rejected earlier, as in the script). -/
theorem insert_err_size (file : List Nat) (pos : Int) (r : DbRecord)
    (hpos : 1 ≤ pos) (hmod : file.length % RECORD_SIZE ≠ 0) :
    insert_record_at file pos r = .error .sizeInconsistency := by
  unfold insert_record_at
  rw [if_neg (by omega), if_pos hmod]

theorem delete_err_size (file : List Nat) (pos : Int)
    (hpos : 1 ≤ pos) (hmod : file.length % RECORD_SIZE ≠ 0) :
    delete_record file pos = .error .sizeInconsistency := by
  unfold delete_record
  rw [if_neg (by omega), if_pos hmod]

theorem insert_err_low (file : List Nat) (pos : Int) (r : DbRecord)
    (hpos : pos < 1) :
    insert_record_at file pos r = .error .positionOutOfRange := by
  unfold insert_record_at
  rw [if_pos hpos]

theorem insert_err_high (cs : List (List Nat)) (pos : Int) (r : DbRecord)
    (hcs : Chunks43 cs) (hpos1 : 1 ≤ pos) (hpos2 : (cs.length : Int) + 1 < pos) :
    insert_record_at cs.flatten pos r = .error .positionOutOfRange := by
  have hmod := flatten_mod cs hcs
  have hdiv := flatten_div cs hcs
  unfold insert_record_at
  rw [if_neg (by omega)]
  simp only [hdiv, hmod, ne_eq, not_true_eq_false, not_false_eq_true,
    if_false, if_true]
  rw [if_pos (by omega)]

theorem delete_err_empty (pos : Int) (hpos : 1 ≤ pos) :
    delete_record [] pos = .error .emptyStore := by
  unfold delete_record
  rw [if_neg (by omega)]
  simp [RECORD_SIZE]

/-! ### The comparison search dispatch -/

theorem digit_search_parse_none (cond : List Nat) (h : claimParse cond = none)
    (file : List Nat) : digit_search file cond = .error .invalidQuery := by
  unfold claimParse at h
  unfold digit_search
  cases hs : pyStrip cond with
  | nil => rfl
  | cons op rest =>
    rw [hs] at h
    simp only at h ⊢
    by_cases hop : op = 62 ∨ op = 60 ∨ op = 61
    · rw [if_pos hop] at h ⊢
      by_cases hnil : pyStrip rest = []
      · rw [if_pos hnil]
      · rw [if_neg hnil]
        by_cases hdot : (pyStrip rest).contains 46
        · rw [if_pos hdot] at h
          rw [if_pos hdot]
          cases hp : pyFloatParse (pyStrip rest) with
          | none => rfl
          | some q => rw [hp] at h; simp at h
        · rw [if_neg hdot] at h
          rw [if_neg hdot]
          cases hp : pyIntParse (pyStrip rest) with
          | none => rfl
          | some k => rw [hp] at h; simp at h
    · rw [if_neg hop] at h ⊢

theorem digit_search_parse_price (cond : List Nat) (c : Nat) (t : ExactVal)
    (h : claimParse cond = some (.priceCmp c t)) (file : List Nat) :
    digit_search file cond =
      numGuarded file (fun rec => f32CmpOp c rec.price t) := by
  unfold claimParse at h
  unfold digit_search numGuarded
  cases hs : pyStrip cond with
  | nil => rw [hs] at h; simp at h
  | cons op rest =>
    rw [hs] at h
    simp only at h ⊢
    by_cases hop : op = 62 ∨ op = 60 ∨ op = 61
    · rw [if_pos hop] at h ⊢
      by_cases hnil : pyStrip rest = []
      · exfalso
        rw [hnil] at h
        simp [List.contains, pyIntParse, parseDigits] at h
      · rw [if_neg hnil]
        by_cases hdot : (pyStrip rest).contains 46
        · rw [if_pos hdot] at h
          rw [if_pos hdot]
          cases hp : pyFloatParse (pyStrip rest) with
          | none => rw [hp] at h; simp at h
          | some q2 =>
            rw [hp] at h
            simp only [Option.map] at h
            injection h with h2
            injection h2 with h3 h4
            rw [h3, h4]
        · exfalso
          rw [if_neg hdot] at h
          cases hp : pyIntParse (pyStrip rest) with
          | none => rw [hp] at h; simp at h
          | some k => rw [hp] at h; simp at h
    · rw [if_neg hop] at h
      simp at h

theorem digit_search_parse_count (cond : List Nat) (c : Nat) (k : Int)
    (h : claimParse cond = some (.countCmp c k)) (file : List Nat) :
    digit_search file cond =
      numGuarded file (fun rec => intCmpOp c rec.count k) := by
  unfold claimParse at h
  unfold digit_search numGuarded
  cases hs : pyStrip cond with
  | nil => rw [hs] at h; simp at h
  | cons op rest =>
    rw [hs] at h
    simp only at h ⊢
    by_cases hop : op = 62 ∨ op = 60 ∨ op = 61
    · rw [if_pos hop] at h ⊢
      by_cases hnil : pyStrip rest = []
      · exfalso
        rw [hnil] at h
        simp [List.contains, pyIntParse, parseDigits] at h
      · rw [if_neg hnil]
        by_cases hdot : (pyStrip rest).contains 46
        · exfalso
          rw [if_pos hdot] at h
          cases hp : pyFloatParse (pyStrip rest) with
          | none => rw [hp] at h; simp at h
          | some q => rw [hp] at h; simp at h
        · rw [if_neg hdot] at h
          rw [if_neg hdot]
          cases hp : pyIntParse (pyStrip rest) with
          | none => rw [hp] at h; simp at h
          | some k2 =>
            rw [hp] at h
            simp only [Option.map] at h
            injection h with h2
            injection h2 with h3 h4
            rw [h3, h4]
    · rw [if_neg hop] at h
      simp at h

/-! ### The claims -/

/-- Claim C1: on a consistent store of `n` records and any position `p`
in `[1, n + 1]`, `InsertAt(p, r)` grows the file by exactly one record
width, and a subsequent scan yields `n + 1` records with the encoded `r`
at position `p` (index `p - 1` of the chunk list), every record at a
position below `p` unchanged, and every record at a position at or above
`p` shifted one slot up, in the same relative order.  A consistent store
is the concatenation of its 43-byte records; `r` carries a count in the
signed 32-bit range, as the data model fixes. -/
theorem c1_insert_then_scan (cs : List (List Nat)) (r : DbRecord) (p : Nat)
    (hcs : Chunks43 cs)
    (h1 : -(2 ^ 31) ≤ r.count) (h2 : r.count < 2 ^ 31)
    (hp1 : 1 ≤ p) (hp2 : p ≤ cs.length + 1) :
    ∃ F, insert_record_at cs.flatten (p : Int) r = .ok F ∧
      F = (cs.take (p - 1) ++ packBytes r :: cs.drop (p - 1)).flatten ∧
      F.length = cs.flatten.length + RECORD_SIZE ∧
      print_db_from_file F = (cs.take (p - 1) ++ packBytes r :: cs.drop (p - 1), none) ∧
      (cs.take (p - 1) ++ packBytes r :: cs.drop (p - 1)).length = cs.length + 1 := by
  have hcs' : Chunks43 (cs.take (p - 1) ++ packBytes r :: cs.drop (p - 1)) :=
    chunks43_append _ _ (chunks43_take cs _ hcs)
      (chunks43_cons _ _ (length_packBytes r) (chunks43_drop cs _ hcs))
  have hlen' : (cs.take (p - 1) ++ packBytes r :: cs.drop (p - 1)).length =
      cs.length + 1 := by
    rw [List.length_append, List.length_cons, List.length_take, List.length_drop]
    omega
  have hlenF : ((cs.take (p - 1) ++ packBytes r :: cs.drop (p - 1)).flatten).length =
      cs.flatten.length + RECORD_SIZE := by
    rw [length_flatten43 _ hcs', length_flatten43 _ hcs, hlen']
    ring
  refine ⟨(cs.take (p - 1) ++ packBytes r :: cs.drop (p - 1)).flatten, ?_, rfl,
    hlenF, print_db_flatten _ hcs', hlen'⟩
  by_cases hcase : p ≤ cs.length
  · exact insert_shift_ok cs r p hcs hp1 hcase h1 h2
  · have hpn : p = cs.length + 1 := by omega
    have htk : cs.take (p - 1) = cs := List.take_of_length_le (by omega)
    have hdr : cs.drop (p - 1) = [] := List.drop_of_length_le (by omega)
    rw [htk, hdr, hpn]
    have hap := insert_append_ok cs r hcs h1 h2
    rw [show ((cs.length : Int) + 1) = ((cs.length + 1 : Nat) : Int) from by
      push_cast; ring] at hap
    rw [hap]
    simp

/-- Witness for C1 at a one-record store and position 1. -/
theorem c1_witness :
    ∃ F, insert_record_at ([List.replicate 43 0] : List (List Nat)).flatten ((1 : Nat) : Int) recW = .ok F ∧
      F = (([List.replicate 43 0] : List (List Nat)).take 0 ++
        packBytes recW :: ([List.replicate 43 0] : List (List Nat)).drop 0).flatten ∧
      F.length = ([List.replicate 43 0] : List (List Nat)).flatten.length + RECORD_SIZE ∧
      print_db_from_file F = (([List.replicate 43 0] : List (List Nat)).take 0 ++
        packBytes recW :: ([List.replicate 43 0] : List (List Nat)).drop 0, none) ∧
      (([List.replicate 43 0] : List (List Nat)).take 0 ++
        packBytes recW :: ([List.replicate 43 0] : List (List Nat)).drop 0).length =
        ([List.replicate 43 0] : List (List Nat)).length + 1 :=
  c1_insert_then_scan [List.replicate 43 0] recW 1
    (by unfold Chunks43; decide) (by decide) (by decide) (by decide) (by decide)

/-- Claim C2: on a consistent store of `n ≥ 1` records and any position
`p` in `[1, n]`, `DeleteAt(p)` shrinks the file by exactly one record
width (to `(n - 1) * 43` bytes), and a subsequent scan yields the `n - 1`
remaining records in their original relative order, with the record that
was at position `p` removed from its slot. -/
theorem c2_delete_then_scan (cs : List (List Nat)) (p : Nat)
    (hcs : Chunks43 cs) (hp1 : 1 ≤ p) (hp2 : p ≤ cs.length) :
    ∃ F, delete_record cs.flatten (p : Int) = .ok F ∧
      F = (cs.take (p - 1) ++ cs.drop p).flatten ∧
      F.length + RECORD_SIZE = cs.flatten.length ∧
      F.length = (cs.length - 1) * RECORD_SIZE ∧
      print_db_from_file F = (cs.take (p - 1) ++ cs.drop p, none) ∧
      (cs.take (p - 1) ++ cs.drop p).length + 1 = cs.length := by
  have hAB : Chunks43 (cs.take (p - 1) ++ cs.drop p) :=
    chunks43_append _ _ (chunks43_take cs _ hcs) (chunks43_drop cs _ hcs)
  have hlen' : (cs.take (p - 1) ++ cs.drop p).length + 1 = cs.length := by
    rw [List.length_append, List.length_take, List.length_drop]
    omega
  have hlenF : ((cs.take (p - 1) ++ cs.drop p).flatten).length =
      (cs.length - 1) * RECORD_SIZE := by
    rw [length_flatten43 _ hAB, Nat.mul_comm]
    congr 1
    omega
  refine ⟨(cs.take (p - 1) ++ cs.drop p).flatten, delete_ok cs p hcs hp1 hp2, rfl,
    ?_, hlenF, print_db_flatten _ hAB, hlen'⟩
  rw [hlenF, length_flatten43 _ hcs]
  simp only [RECORD_SIZE]
  omega

/-- Witness for C2 at a one-record store and position 1. -/
theorem c2_witness :
    ∃ F, delete_record ([List.replicate 43 0] : List (List Nat)).flatten ((1 : Nat) : Int) = .ok F ∧
      F = (([List.replicate 43 0] : List (List Nat)).take 0 ++
        ([List.replicate 43 0] : List (List Nat)).drop 1).flatten ∧
      F.length + RECORD_SIZE = ([List.replicate 43 0] : List (List Nat)).flatten.length ∧
      F.length = (([List.replicate 43 0] : List (List Nat)).length - 1) * RECORD_SIZE ∧
      print_db_from_file F = (([List.replicate 43 0] : List (List Nat)).take 0 ++
        ([List.replicate 43 0] : List (List Nat)).drop 1, none) ∧
      (([List.replicate 43 0] : List (List Nat)).take 0 ++
        ([List.replicate 43 0] : List (List Nat)).drop 1).length + 1 =
        ([List.replicate 43 0] : List (List Nat)).length :=
  c2_delete_then_scan [List.replicate 43 0] 1
    (by unfold Chunks43; decide) (by decide) (by decide)

/-- Counterexample to C3 as stated: the record `("\x00", 0, 0.0, "")` has
a name of 1 byte (within all the fixed widths), yet decoding its encoding
strips the trailing zero byte, so the round trip does not return the
original record. -/
theorem c3_counterexample :
    (cexRec3.name.length ≤ 20 ∧ cexRec3.category.length ≤ 15 ∧
      -(2 ^ 31) ≤ cexRec3.count ∧ cexRec3.count < 2 ^ 31 ∧ cexRec3.price < 2 ^ 32) ∧
    pack_record cexRec3 = .ok (List.replicate 43 0) ∧
    unpack_record (List.replicate 43 0) ≠ cexRec3 :=
  ⟨by decide, rfl, by decide⟩

/-- Claim C3 (amended): for every record whose name and category fit the
20- and 15-byte widths *and carry no trailing zero bytes*, whose count
fits a signed 32-bit integer and whose price fits the 4-byte binary32
width, `Decode(Encode(r)) = r` with all four fields equal. -/
theorem c3_roundtrip (r : DbRecord)
    (hn : r.name.length ≤ 20) (hc : r.category.length ≤ 15)
    (hn0 : rstrip0 r.name = r.name) (hc0 : rstrip0 r.category = r.category)
    (h1 : -(2 ^ 31) ≤ r.count) (h2 : r.count < 2 ^ 31) (hp : r.price < 2 ^ 32) :
    ∃ b, pack_record r = .ok b ∧ unpack_record b = r :=
  ⟨packBytes r, pack_record_ok r h1 h2,
    unpack_packBytes r hn hc hn0 hc0 h1 h2 hp⟩

/-- Witness for the amended C3 at a concrete record. -/
theorem c3_witness :
    ∃ b, pack_record recW = .ok b ∧ unpack_record b = recW :=
  c3_roundtrip recW (by decide) (by decide) (by decide) (by decide)
    (by decide) (by decide) (by decide)

/-- Claim C4: on a file of length `k * 43 + m` with `0 < m < 43`, the scan
emits exactly the `k` full records followed by a terminal corruption
marker carrying `m`, without raising; and `InsertAt` / `DeleteAt` (at any
position ≥ 1; smaller ones are rejected as out of range even earlier)
fail with the size-inconsistency condition, returning before any write,
so the file is untouched. -/
theorem c4_corrupt_file (cs : List (List Nat)) (t : List Nat) (p : Int) (r : DbRecord)
    (hcs : Chunks43 cs) (ht1 : t ≠ []) (ht2 : t.length < RECORD_SIZE) (hp : 1 ≤ p) :
    print_db_from_file (cs.flatten ++ t) = (cs, some t.length) ∧
    (cs.flatten ++ t).length / RECORD_SIZE = cs.length ∧
    (cs.flatten ++ t).length % RECORD_SIZE = t.length ∧
    insert_record_at (cs.flatten ++ t) p r = .error .sizeInconsistency ∧
    delete_record (cs.flatten ++ t) p = .error .sizeInconsistency := by
  have hfl := length_flatten43 cs hcs
  have htl : t.length ≠ 0 := by
    intro h0
    exact ht1 (List.length_eq_zero.1 h0)
  have hlen : (cs.flatten ++ t).length = RECORD_SIZE * cs.length + t.length := by
    rw [List.length_append, hfl]
  have hmod : (cs.flatten ++ t).length % RECORD_SIZE = t.length := by
    rw [hlen, Nat.add_comm, Nat.add_mul_mod_self_left]
    exact Nat.mod_eq_of_lt ht2
  have hdiv : (cs.flatten ++ t).length / RECORD_SIZE = cs.length := by
    rw [hlen]
    simp only [RECORD_SIZE] at ht2 ⊢
    omega
  refine ⟨?_, hdiv, hmod, insert_err_size _ _ _ hp (by rw [hmod]; exact htl),
    delete_err_size _ _ hp (by rw [hmod]; exact htl)⟩
  have := print_db_spec cs t hcs ht2
  rw [if_neg htl] at this
  exact this

/-- Witness for C4: a one-record store with a two-byte dangling tail. -/
theorem c4_witness :
    print_db_from_file (([List.replicate 43 0] : List (List Nat)).flatten ++ [7, 7]) =
      ([List.replicate 43 0], some ([7, 7] : List Nat).length) ∧
    (([List.replicate 43 0] : List (List Nat)).flatten ++ [7, 7]).length / RECORD_SIZE =
      ([List.replicate 43 0] : List (List Nat)).length ∧
    (([List.replicate 43 0] : List (List Nat)).flatten ++ [7, 7]).length % RECORD_SIZE =
      ([7, 7] : List Nat).length ∧
    insert_record_at (([List.replicate 43 0] : List (List Nat)).flatten ++ [7, 7]) 1 recW =
      .error .sizeInconsistency ∧
    delete_record (([List.replicate 43 0] : List (List Nat)).flatten ++ [7, 7]) 1 =
      .error .sizeInconsistency :=
  c4_corrupt_file [List.replicate 43 0] [7, 7] 1 recW
    (by unfold Chunks43; decide) (by decide) (by decide) (by decide)

/-- Claim C5: on a consistent store of `n` records, `InsertAt(n + 1, r)`
always succeeds as a plain append, `InsertAt(0, r)` and `InsertAt(n + 2, r)`
fail with the position-out-of-range condition, and `DeleteAt` on an empty
store (any requested position ≥ 1) fails with the empty-store condition;
the failing calls return before any write. -/
theorem c5_boundaries (cs : List (List Nat)) (r : DbRecord)
    (hcs : Chunks43 cs)
    (h1 : -(2 ^ 31) ≤ r.count) (h2 : r.count < 2 ^ 31) :
    insert_record_at cs.flatten ((cs.length : Int) + 1) r =
      .ok (cs.flatten ++ packBytes r) ∧
    insert_record_at cs.flatten 0 r = .error .positionOutOfRange ∧
    insert_record_at cs.flatten ((cs.length : Int) + 2) r =
      .error .positionOutOfRange ∧
    (∀ q : Int, 1 ≤ q → delete_record [] q = .error .emptyStore) :=
  ⟨insert_append_ok cs r hcs h1 h2,
    insert_err_low _ _ _ (by norm_num),
    insert_err_high cs _ r hcs (by omega) (by omega),
    fun q hq => delete_err_empty q hq⟩

/-- Witness for C5 on the empty store. -/
theorem c5_witness :
    insert_record_at ([] : List (List Nat)).flatten ((([] : List (List Nat)).length : Int) + 1) recW =
      .ok (([] : List (List Nat)).flatten ++ packBytes recW) ∧
    insert_record_at ([] : List (List Nat)).flatten 0 recW = .error .positionOutOfRange ∧
    insert_record_at ([] : List (List Nat)).flatten ((([] : List (List Nat)).length : Int) + 2) recW =
      .error .positionOutOfRange ∧
    delete_record [] 1 = .error .emptyStore := by
  have h := c5_boundaries [] recW (by unfold Chunks43; decide) (by decide) (by decide)
  exact ⟨h.1, h.2.1, h.2.2.1, h.2.2.2 1 (by norm_num)⟩

/-- Claim C6: the comparison search is driven by the literal's lexical
form.  `claimParse` is the dispatch rule as the spec words it: a literal
containing a dot selects the price field compared as a float, any other
literal selects the count field compared as an integer, and a bad
operator byte or an unparseable literal yields no query.  The theorem
shows `digit_search` realises exactly this rule: a condition with no
query is answered `InvalidQuery` on *every* file — before any record is
scanned — never a silent non-match, and a parsed condition runs the
guarded scan with the comparison on the selected field. -/
theorem c6_field_dispatch (file cond : List Nat) :
    (claimParse cond = none → digit_search file cond = .error .invalidQuery) ∧
    (∀ c t, claimParse cond = some (ClaimQuery.priceCmp c t) →
      digit_search file cond = numGuarded file (fun rec => f32CmpOp c rec.price t)) ∧
    (∀ c k, claimParse cond = some (ClaimQuery.countCmp c k) →
      digit_search file cond = numGuarded file (fun rec => intCmpOp c rec.count k)) :=
  ⟨fun h => digit_search_parse_none cond h file,
    fun c t h => digit_search_parse_price cond c t h file,
    fun c k h => digit_search_parse_count cond c k h file⟩

/-- Witness for C6: the condition `>5.0` (fractional literal) runs a price
comparison, the condition `x5` is an invalid query on any file. -/
theorem c6_witness :
    digit_search [] [62, 53, 46, 48] =
      numGuarded [] (fun rec => f32CmpOp 62 rec.price ⟨50, 10⟩) ∧
    digit_search storeC8 [120, 53] = .error .invalidQuery :=
  ⟨(c6_field_dispatch [] [62, 53, 46, 48]).2.1 62 ⟨50, 10⟩ (by decide),
    (c6_field_dispatch storeC8 [120, 53]).1 (by decide)⟩

/-- Counterexample to C7 as stated: the well-typed record
`("", 2 ** 31, 0.0, "")` makes `struct.pack("i", ...)` raise, so Encode
is not total on well-typed records. -/
theorem c7_counterexample :
    pack_record cexRec7 = .error .countOutOfRange := rfl

/-- Claim C7 (amended): for every record whose count fits a signed 32-bit
integer (and whose price fits the binary32 width, which the price field
of the model carries by construction), Encode succeeds and returns
exactly 43 bytes; over-long text fields are truncated, not an error. -/
theorem c7_encode_total (r : DbRecord)
    (h1 : -(2 ^ 31) ≤ r.count) (h2 : r.count < 2 ^ 31) :
    ∃ b, pack_record r = .ok b ∧ b.length = RECORD_SIZE :=
  ⟨packBytes r, pack_record_ok r h1 h2, length_packBytes r⟩

/-- Witness for the amended C7 at a record whose name is 25 bytes long:
encoding truncates it and still returns exactly 43 bytes. -/
theorem c7_witness :
    ∃ b, pack_record (DbRecord.mk (List.replicate 25 1) 0 0 []) = .ok b ∧
      b.length = RECORD_SIZE :=
  c7_encode_total (DbRecord.mk (List.replicate 25 1) 0 0 []) (by decide) (by decide)

/-- Counterexample to C8 as stated: on the store
`[("apple", 10, 3.5, "fruit"), ("book", 2, 799.0, "goods")]` the query
`>5.0` matches only the record at position 2 (3.5 > 5.0 is false), not
both positions. -/
theorem c8_counterexample :
    digit_search storeC8 [62, 53, 46, 48] = .ok [(2, bookRec)] ∧
    (1 : Nat) ∉ ([(2, bookRec)].map Prod.fst) :=
  ⟨rfl, by decide⟩

/-- Claim C8 (amended): on a store initialized with exactly
`("apple", 10, 3.5, "fruit")` and `("book", 2, 799.0, "goods")`,
`FindByField(count, "2")` returns exactly position 2,
`FindByComparison(">", "5")` (integer literal, count field) returns
exactly position 1, and `FindByComparison(">", "5.0")` (fractional
literal, price field) returns exactly position 2. -/
theorem c8_scenario :
    init_db_binary [appleRec, bookRec] = .ok storeC8 ∧
    one_field_search storeC8 2 [50] = .ok [(2, bookRec)] ∧
    digit_search storeC8 [62, 53] = .ok [(1, appleRec)] ∧
    digit_search storeC8 [62, 53, 46, 48] = .ok [(2, bookRec)] :=
  ⟨rfl, rfl, rfl, rfl⟩

/-- Claim C9: on a file whose length is not a multiple of 43, each of the
three searches reports the size inconsistency and returns before reading
any record (for `two_fields_search` and `digit_search` the query
arguments are validated even earlier, so the claim holds for well-formed
queries); and on a consistent zero-record store (the empty file) each
search reports the empty store and emits no matches. -/
theorem c9_search_guards (file : List Nat) (fn : Int) (v : List Nat)
    (f1 f2 : Int) (v1 v2 : List Nat) (cond : List Nat) (t : ClaimQuery) :
    (file.length % RECORD_SIZE ≠ 0 →
      one_field_search file fn v = .error .sizeInconsistency ∧
      (f1 ≠ f2 → (f1 = 1 ∨ f1 = 2 ∨ f1 = 3 ∨ f1 = 4) →
        (f2 = 1 ∨ f2 = 2 ∨ f2 = 3 ∨ f2 = 4) →
        two_fields_search file f1 v1 f2 v2 = .error .sizeInconsistency) ∧
      (claimParse cond = some t →
        digit_search file cond = .error .sizeInconsistency)) ∧
    (one_field_search [] fn v = .error .emptyStore ∧
      (f1 ≠ f2 → (f1 = 1 ∨ f1 = 2 ∨ f1 = 3 ∨ f1 = 4) →
        (f2 = 1 ∨ f2 = 2 ∨ f2 = 3 ∨ f2 = 4) →
        two_fields_search [] f1 v1 f2 v2 = .error .emptyStore) ∧
      (claimParse cond = some t → digit_search [] cond = .error .emptyStore)) := by
  constructor
  · intro hmod
    refine ⟨?_, ?_, ?_⟩
    · unfold one_field_search
      rw [if_pos hmod]
    · intro hne hv1 hv2
      unfold two_fields_search
      rw [if_neg hne, if_neg (by push_neg; constructor <;> intro <;> omega),
        if_pos hmod]
    · intro hparse
      cases t with
      | priceCmp c q =>
        rw [digit_search_parse_price cond c q hparse file]
        unfold numGuarded
        rw [if_pos hmod]
      | countCmp c k =>
        rw [digit_search_parse_count cond c k hparse file]
        unfold numGuarded
        rw [if_pos hmod]
  · refine ⟨rfl, ?_, ?_⟩
    · intro hne hv1 hv2
      unfold two_fields_search
      rw [if_neg hne, if_neg (by push_neg; constructor <;> intro <;> omega)]
      rfl
    · intro hparse
      cases t with
      | priceCmp c q =>
        rw [digit_search_parse_price cond c q hparse []]
        rfl
      | countCmp c k =>
        rw [digit_search_parse_count cond c k hparse []]
        rfl

/-- Witness for C9: the one-byte file has an inconsistent size, the empty
file is the zero-record store. -/
theorem c9_witness :
    one_field_search [7] 1 [] = .error .sizeInconsistency ∧
    two_fields_search [7] 1 [] 2 [] = .error .sizeInconsistency ∧
    digit_search [7] [62, 53] = .error .sizeInconsistency ∧
    one_field_search [] 1 [] = .error .emptyStore ∧
    two_fields_search [] 1 [] 2 [] = .error .emptyStore ∧
    digit_search [] [62, 53] = .error .emptyStore := by
  have h := c9_search_guards [7] 1 [] 1 2 [] [] [62, 53] (ClaimQuery.countCmp 62 5)
  exact ⟨(h.1 (by decide)).1,
    (h.1 (by decide)).2.1 (by decide) (by decide) (by decide),
    (h.1 (by decide)).2.2 (by decide),
    h.2.1,
    h.2.2.1 (by decide) (by decide) (by decide),
    h.2.2.2 (by decide)⟩

/-- Claim C10: whenever Encode succeeds, the decoded name and category
carry no trailing zero bytes (stripping is idempotent on them), the
encode-then-decode pipeline is idempotent
(`Decode(Encode(Decode(Encode(r)))) = Decode(Encode(r))`), and two
records differing only in trailing zero bytes of a text field encode to
identical 43-byte blocks. -/
theorem c10_idempotence (r : DbRecord) (b : List Nat)
    (hb : pack_record r = .ok b) :
    rstrip0 (unpack_record b).name = (unpack_record b).name ∧
    rstrip0 (unpack_record b).category = (unpack_record b).category ∧
    (∃ b2, pack_record (unpack_record b) = .ok b2 ∧
      unpack_record b2 = unpack_record b) ∧
    (∀ r2 : DbRecord, rstrip0 r2.name = rstrip0 r.name →
      rstrip0 r2.category = rstrip0 r.category → r2.count = r.count →
      r2.price = r.price → pack_record r2 = pack_record r) := by
  have hcond : ¬(r.count < -(2 ^ 31) ∨ 2 ^ 31 ≤ r.count) := by
    by_contra hcond
    unfold pack_record at hb
    rw [if_pos hcond] at hb
    exact absurd hb (by simp)
  have hbeq : b = packBytes r := by
    unfold pack_record at hb
    rw [if_neg hcond] at hb
    injection hb with h
    exact h.symm
  subst hbeq
  obtain ⟨e1, e2, e3, e4⟩ := packBytes_split r
  have hname_idem : rstrip0 (unpack_record (packBytes r)).name =
      (unpack_record (packBytes r)).name := by
    show rstrip0 (rstrip0 ((packBytes r).take 20)) = rstrip0 ((packBytes r).take 20)
    exact rstrip0_idem _
  have hcat_idem : rstrip0 (unpack_record (packBytes r)).category =
      (unpack_record (packBytes r)).category := by
    show rstrip0 (rstrip0 (((packBytes r).drop 28).take 15)) =
      rstrip0 (((packBytes r).drop 28).take 15)
    exact rstrip0_idem _
  refine ⟨hname_idem, hcat_idem, ?_, ?_⟩
  · have hu : unpack_record (packBytes r) = DbRecord.mk
        (rstrip0 (padTo 20 (r.name.take 20)))
        (toI32 ((r.count % 2 ^ 32).toNat % 2 ^ 32))
        (r.price % 2 ^ 32 % 2 ^ 32)
        (rstrip0 (padTo 15 (r.category.take 15))) := by
      unfold unpack_record
      rw [e1, e2, e3, e4, fromLE4_le4, fromLE4_le4]
    rw [hu]
    have hcnt := toI32_range ((r.count % 2 ^ 32).toNat % 2 ^ 32)
      (Nat.mod_lt _ (by norm_num))
    refine ⟨packBytes (DbRecord.mk _ _ _ _), pack_record_ok _ hcnt.1 hcnt.2,
      unpack_packBytes _ ?_ ?_ ?_ ?_ hcnt.1 hcnt.2 ?_⟩
    · calc (rstrip0 (padTo 20 (r.name.take 20))).length
          ≤ (padTo 20 (r.name.take 20)).length := rstrip0_length_le _
        _ ≤ 20 := le_of_eq (length_padTo_take 20 r.name)
    · calc (rstrip0 (padTo 15 (r.category.take 15))).length
          ≤ (padTo 15 (r.category.take 15)).length := rstrip0_length_le _
        _ ≤ 15 := le_of_eq (length_padTo_take 15 r.category)
    · exact rstrip0_idem _
    · exact rstrip0_idem _
    · exact Nat.mod_lt _ (by norm_num)
  · intro r2 hrn hrc hcnt hpr
    unfold pack_record packBytes
    rw [hcnt, hpr, padTo_take_eq_of_rstrip0_eq 20 r2.name r.name hrn,
      padTo_take_eq_of_rstrip0_eq 15 r2.category r.category hrc]

/-- Witness for C10 at a concrete record. -/
theorem c10_witness :
    rstrip0 (unpack_record (packBytes recW)).name = (unpack_record (packBytes recW)).name ∧
    rstrip0 (unpack_record (packBytes recW)).category = (unpack_record (packBytes recW)).category ∧
    (∃ b2, pack_record (unpack_record (packBytes recW)) = .ok b2 ∧
      unpack_record b2 = unpack_record (packBytes recW)) ∧
    (∀ r2 : DbRecord, rstrip0 r2.name = rstrip0 recW.name →
      rstrip0 r2.category = rstrip0 recW.category → r2.count = recW.count →
      r2.price = recW.price → pack_record r2 = pack_record recW) :=
  c10_idempotence recW (packBytes recW) rfl
